import Mathlib

/-!
# Shallow embedding of the json-db core (src/lib/db.js)

The repository is a small JSON document database.  Its core (`src/lib/db.js`)
operates over an in-memory mapping of document id to document, where a
document is a JavaScript object of JSON-like values.  This file embeds the
data model and the operations the claims are about:

* `Value` — JS values reachable from stored documents and caller-supplied
  queries: `undefined`, `null`, booleans, numbers, strings, arrays, objects.
  Objects and arrays are kept as ordered (association) lists, mirroring
  JS own-property order.  Numbers are modelled as `Int`: no claim depends on
  fractional or overflow behaviour of IEEE doubles.
* JS primitive behaviour is modelled explicitly: `jsTypeof`, `jsTruthy`,
  strict equality `jsStrictEq` (reference equality on arrays/objects: a
  caller-supplied query value and a stored document value are never aliases,
  because the store only holds `structuredClone`d documents, so `===` between
  them is always `false`), and `Object.keys` / `Object.entries`, which raise a
  `TypeError` on `null`/`undefined`.  Exceptions are modelled with
  `Except String`.
* `structuredClone` is the identity: values are immutable in the embedding,
  so a deep copy is indistinguishable from the original; in-place mutation of
  a document or of the store becomes explicit state passing.
* JS `RegExp` (used only by the `$like` operator) is a host-language
  primitive, not code of this repository; the engine is therefore a parameter
  `rt : String → String → Except String Bool` of the query semantics
  (compile-and-test, which may raise on an ill-formed pattern).
* `Math.random` (used only by the id generator) is likewise a host
  primitive; it is modelled as a finite supply of per-character draws
  `List (Fin 64)` (`Math.floor(Math.random() * 64)` is a value in `0..63`).
-/

set_option linter.unusedVariables false

namespace JsonDb

/-- JS values occurring in documents and queries (first-order fragment:
function values are not representable, which matches the fact that no
persisted or JSON-derived value is a function). -/
inductive Value where
  | undefined
  | null
  | bool (b : Bool)
  | num (n : Int)
  | str (s : String)
  | arr (elems : List Value)
  | obj (fields : List (String × Value))

/-- A document: the field list of a JS object (`Doc` in the source). -/
abbrev Doc := List (String × Value)

/-- The id → document mapping (`DocMap` in the source). -/
abbrev DocMap := List (String × Doc)

/-- JS `typeof`. Note `typeof null === "object"` and
`typeof [] === "object"`. -/
def jsTypeof : Value → String
  | .undefined  => "undefined"
  | .null   => "object"
  | .bool _ => "boolean"
  | .num _  => "number"
  | .str _  => "string"
  | .arr _  => "object"
  | .obj _  => "object"

/-- JS truthiness. -/
def jsTruthy : Value → Bool
  | .undefined  => false
  | .null   => false
  | .bool b => b
  | .num n  => n != 0
  | .str s  => s != ""
  | .arr _  => true
  | .obj _  => true

/-- `Array.isArray`. -/
def isArray : Value → Bool
  | .arr _ => true
  | _      => false

/-- `v === undefined`. -/
def isUndefined : Value → Bool
  | .undefined => true
  | _      => false

/-- `typeof v === "object" && !Array.isArray(v) && v !== null` —
the plain-object test used by `dbInsert`/`dbUpdate`/`dbProjection`. -/
def isJsObject : Value → Bool
  | .obj _ => true
  | _      => false

/-- JS strict equality `===` on the values the engine compares.  Scalars
compare structurally; arrays and objects compare by reference, and the two
sides reaching a comparison in this engine (a stored, cloned document value
versus a caller-supplied query value) are never the same reference, hence
`false`. -/
def jsStrictEq : Value → Value → Bool
  | .undefined,  .undefined  => true
  | .null,   .null   => true
  | .bool a, .bool b => a == b
  | .num a,  .num b  => a == b
  | .str a,  .str b  => a == b
  | _,       _       => false

/-! ## Association-list primitives

JS object property access, assignment and deletion on the ordered field
list.  Assignment replaces the value of an existing key in place, otherwise
appends the key at the end — exactly JS own-property order semantics. -/

/-- `o[k]` as an `Option` (`none` = key absent). -/
def alistGet {α : Type} (k : String) : List (String × α) → Option α
  | [] => none
  | p :: rest => if p.1 == k then some p.2 else alistGet k rest

/-- `o[k] = v`. -/
def alistSet {α : Type} (k : String) (v : α) : List (String × α) → List (String × α)
  | [] => [(k, v)]
  | p :: rest => if p.1 == k then (k, v) :: rest else p :: alistSet k v rest

/-- `delete o[k]`. -/
def alistErase {α : Type} (k : String) : List (String × α) → List (String × α)
  | [] => []
  | p :: rest => if p.1 == k then rest else p :: alistErase k rest

/-- `doc[k]` — JS property read: an absent field reads as `undefined`. -/
def getField (d : Doc) (k : String) : Value :=
  (alistGet k d).getD .undefined

/-- `doc[k] = v`. -/
def setField (d : Doc) (k : String) (v : Value) : Doc :=
  alistSet k v d

/-- `delete doc[k]`. -/
def deleteField (d : Doc) (k : String) : Doc :=
  alistErase k d

/-- `db[id]` — store lookup (documents are objects, hence truthy;
`db[id] ? … : …` in the source is presence of the key). -/
def lookupDoc (db : DocMap) (id : String) : Option Doc :=
  alistGet id db

/-- `db[id] = doc`. -/
def setDoc (db : DocMap) (id : String) (d : Doc) : DocMap :=
  alistSet id d db

/-- `delete db[id]`. -/
def deleteDoc (db : DocMap) (id : String) : DocMap :=
  alistErase id db

/-- `Object.keys(db)`. -/
def mapKeys (db : DocMap) : List String :=
  db.map Prod.fst

/-- `Object.keys(v)` — raises `TypeError` on `null`/`undefined`; array keys
are the index strings; primitives have no own enumerable keys. -/
def jsObjectKeys : Value → Except String (List String)
  | .undefined => .error "TypeError: Cannot convert undefined or null to object"
  | .null  => .error "TypeError: Cannot convert undefined or null to object"
  | .obj fs => .ok (fs.map Prod.fst)
  | .arr xs => .ok ((List.range xs.length).map toString)
  | .str s  => .ok ((List.range s.length).map toString)
  | _ => .ok []

/-- `Object.entries(v)` — same domain behaviour as `Object.keys`. -/
def jsObjectEntries : Value → Except String (List (String × Value))
  | .undefined => .error "TypeError: Cannot convert undefined or null to object"
  | .null  => .error "TypeError: Cannot convert undefined or null to object"
  | .obj fs => .ok fs
  | .arr xs => .ok (xs.enum.map fun p => (toString p.1, p.2))
  | .str s  => .ok (s.data.enum.map fun p => (toString p.1, .str (String.mk [p.2])))
  | _ => .ok []

/-! ## Query Validator (`validateQuery` / `validateOperator`, db.js 251–356)

The validator walks the query recursively.  It recovers from every malformed
shape it tests for (returning `false` plus a logged diagnostic, which the
embedding drops), but in its `default` branch it runs `Object.keys(qVal)`
whenever `typeof qVal === "object"` — and `typeof null === "object"`, so a
`null` field operand raises a `TypeError` instead of being recovered. -/

/-- `validateOperator(opKey, opVal)` (db.js 305–356). -/
def validateOperator (opKey : String) (opVal : Value) : Bool :=
  if opKey == "$exists" then
    jsStrictEq opVal (.bool true) || jsStrictEq opVal (.bool false) ||
      jsStrictEq opVal (.num 1) || jsStrictEq opVal (.num 0)
  else if opKey == "$lt" || opKey == "$lte" || opKey == "$gt" || opKey == "$gte" then
    jsTypeof opVal == "number" || jsTypeof opVal == "string"
  else if opKey == "$in" || opKey == "$nin" then
    isArray opVal
  else if opKey == "$includes" || opKey == "$eq" || opKey == "$ne" then
    true
  else if opKey == "$like" then
    jsTypeof opVal == "string"
  else if opKey == "$type" then
    jsTypeof opVal == "string"
  else
    false

mutual

/-- `validateQuery(query)` (db.js 251–297).  A non-object query (including
`null` and arrays) is recovered as `false`.  A thrown `TypeError` is the
`Except.error` case. -/
def validateQuery : Value → Except String Bool
  | .obj fs => validateFields fs
  | _ => pure false

/-- The `for (const qName of Object.keys(query))` loop of `validateQuery`,
reading `query[qName]` for each key (JS objects have no duplicate keys, so
iterating the entry list is the same thing). -/
def validateFields : List (String × Value) → Except String Bool
  | [] => pure true
  | (qName, qVal) :: rest =>
    if qName == "$and" || qName == "$or" then
      match qVal with
      | .arr qs => do
        let b ← validateAll qs
        if b then validateFields rest else pure false
      | _ => pure false
    else if qName == "$not" then do
      let b ← validateQuery qVal
      if b then validateFields rest else pure false
    else if qName == "$where" then
      -- `typeof qVal !== "function"` always holds for a first-order `Value`.
      pure false
    else if jsTypeof qVal == "object" then do
      -- `Object.keys(qVal)` raises a TypeError when `qVal` is `null`.
      let entries ← jsObjectEntries qVal
      if entries.all fun p => validateOperator p.1 p.2 then validateFields rest
      else pure false
    else
      validateFields rest

/-- `qVal.every(qry => validateQuery(qry))` — short-circuits on `false`. -/
def validateAll : List Value → Except String Bool
  | [] => pure true
  | q :: qs => do
    let b ← validateQuery q
    if b then validateAll qs else pure false

end

/-! ## Operator Library (`evalOperator` / `evalOperatorSet`, db.js 429–509) -/

/-- The host `RegExp` engine behind `$like`:
`(pattern, input) ↦ new RegExp(pattern, "i").test(input)`, which raises a
`SyntaxError` on an ill-formed pattern.  `RegExp` is a host-language
primitive, not code of this repository, so the semantics is parametrized
over it. -/
abbrev RegexTester := String → String → Except String Bool

/-- `evalOperator(docVal, opKey, opVal)` (db.js 448–509).
`$in`/`$nin` call `opVal.includes(docVal)`; validation guarantees `opVal` is
an array, and on a non-array operand the host would raise (modelled as
`TypeError`; unreachable behind validation).  Array membership uses
SameValueZero, which agrees with strict equality on the value model. -/
def evalOperator (rt : RegexTester) (docVal : Value) (opKey : String) (opVal : Value) :
    Except String Bool :=
  if opKey == "$exists" then
    pure (if jsTruthy opVal then !isUndefined docVal else isUndefined docVal)
  else if opKey == "$lt" then
    match docVal, opVal with
    | .str a, .str b => pure (decide (a < b))
    | .num a, .num b => pure (decide (a < b))
    | _, _ => pure false
  else if opKey == "$lte" then
    match docVal, opVal with
    | .str a, .str b => pure (decide (a ≤ b))
    | .num a, .num b => pure (decide (a ≤ b))
    | _, _ => pure false
  else if opKey == "$gt" then
    match docVal, opVal with
    | .str a, .str b => pure (decide (b < a))
    | .num a, .num b => pure (decide (b < a))
    | _, _ => pure false
  else if opKey == "$gte" then
    match docVal, opVal with
    | .str a, .str b => pure (decide (b ≤ a))
    | .num a, .num b => pure (decide (b ≤ a))
    | _, _ => pure false
  else if opKey == "$in" then
    match opVal with
    | .arr xs => pure (xs.any fun x => jsStrictEq x docVal)
    | _ => .error "TypeError: opVal.includes is not a function"
  else if opKey == "$includes" then
    match docVal with
    | .str s =>
      match opVal with
      | .str p => pure (decide (List.IsInfix p.data s.data))
      | _ => pure false
    | .arr xs => pure (xs.any fun x => jsStrictEq x opVal)
    | _ => pure false
  else if opKey == "$nin" then
    match opVal with
    | .arr xs => pure (!(xs.any fun x => jsStrictEq x docVal))
    | _ => .error "TypeError: opVal.includes is not a function"
  else if opKey == "$eq" then
    pure (jsStrictEq docVal opVal)
  else if opKey == "$ne" then
    pure (!jsStrictEq docVal opVal)
  else if opKey == "$like" then
    match opVal, docVal with
    | .str pat, .str s => rt pat s
    | _, _ => pure false
  else if opKey == "$type" then
    if jsStrictEq opVal (.str "array") then pure (isArray docVal)
    else if jsStrictEq opVal (.str "null") then pure (jsStrictEq docVal .null)
    else pure (jsStrictEq (.str (jsTypeof docVal)) opVal)
  else
    pure false

/-- The `for (const key of Object.keys(opSet))` loop of `evalOperatorSet`. -/
def evalOpEntries (rt : RegexTester) (docVal : Value) :
    List (String × Value) → Except String Bool
  | [] => pure true
  | (k, v) :: rest => do
    let b ← evalOperator rt docVal k v
    if b then evalOpEntries rt docVal rest else pure false

/-- `evalOperatorSet(docVal, opSet)` (db.js 429–437). -/
def evalOperatorSet (rt : RegexTester) (docVal : Value) (opSet : Value) :
    Except String Bool := do
  let entries ← jsObjectEntries opSet
  evalOpEntries rt docVal entries

/-! ## Query Evaluator (`evalQuery`, db.js 364–419) -/

mutual

/-- `evalQuery(doc, query)` (db.js 364–419).  Evaluation is only ever
invoked on queries the validator accepted, which are objects; the
non-object fallbacks mirror `Object.keys` on primitives (`null`/`undefined`
raise, others enumerate no keys so the loop body never runs — for
strings/arrays this ignores their index properties, but those queries are
rejected by validation before evaluation can see them). -/
def evalQuery (rt : RegexTester) (doc : Doc) : Value → Except String Bool
  | .obj fs => evalQueryFields rt doc fs
  | .null => .error "TypeError: Cannot convert undefined or null to object"
  | .undefined => .error "TypeError: Cannot convert undefined or null to object"
  | _ => pure true

/-- The `for (const qName of Object.keys(query))` loop of `evalQuery`. -/
def evalQueryFields (rt : RegexTester) (doc : Doc) :
    List (String × Value) → Except String Bool
  | [] => pure true
  | (qName, qVal) :: rest =>
    if qName == "$and" then
      match qVal with
      | .arr qs => do
        let b ← evalQueryAnd rt doc qs
        if b then evalQueryFields rt doc rest else pure false
      | _ => .error "TypeError: qVal is not iterable"
    else if qName == "$or" then
      match qVal with
      | .arr qs => do
        let b ← evalQueryOr rt doc qs
        if b then evalQueryFields rt doc rest else pure false
      | _ => .error "TypeError: qVal is not iterable"
    else if qName == "$not" then do
      let b ← evalQuery rt doc qVal
      if b then pure false else evalQueryFields rt doc rest
    else if qName == "$where" then
      -- `qVal(doc)` — calling a non-function raises; unreachable behind
      -- validation, which rejects every first-order `$where` operand.
      .error "TypeError: qVal is not a function"
    else if jsTypeof qVal == "object" then do
      let b ← evalOperatorSet rt (getField doc qName) qVal
      if b then evalQueryFields rt doc rest else pure false
    else
      if jsStrictEq (getField doc qName) qVal then evalQueryFields rt doc rest
      else pure false

/-- The `$and` loop: every subquery must match. -/
def evalQueryAnd (rt : RegexTester) (doc : Doc) : List Value → Except String Bool
  | [] => pure true
  | q :: qs => do
    let b ← evalQuery rt doc q
    if b then evalQueryAnd rt doc qs else pure false

/-- The `$or` loop: stop at the first matching subquery. -/
def evalQueryOr (rt : RegexTester) (doc : Doc) : List Value → Except String Bool
  | [] => pure false
  | q :: qs => do
    let b ← evalQuery rt doc q
    if b then pure true else evalQueryOr rt doc qs

end

/-! ## `dbQuery` / `dbQueryOne` (db.js 188–243) -/

/-- The fast-path test `queryKeys.length === 1 && typeof query._id === "string"`
of `dbQuery`/`dbQueryOne`: returns the `_id` operand when it applies. -/
def singleIdQuery (fs : List (String × Value)) : Option String :=
  if fs.length == 1 then
    match alistGet "_id" fs with
    | some (.str i) => some i
    | _ => none
  else none

/-- The general-path scan `for (const id of Object.keys(db)) if (evalQuery …)`
of `dbQuery` (db.js 209–215), in store order. -/
def filterMatches (rt : RegexTester) (q : Value) : DocMap → Except String (List String)
  | [] => pure []
  | (id, d) :: rest => do
    let b ← evalQuery rt d q
    let ids ← filterMatches rt q rest
    pure (if b then id :: ids else ids)

/-- `dbQuery(db, query)` (db.js 188–216). -/
def dbQuery (rt : RegexTester) (db : DocMap) (q : Value) : Except String (List String) := do
  let ok ← validateQuery q
  if !ok then return []
  match q with
  | .obj fs =>
    if fs.isEmpty then return mapKeys db
    else
      match singleIdQuery fs with
      | some i => return (if (lookupDoc db i).isSome then [i] else [])
      | none => filterMatches rt q db
  | _ => return []  -- unreachable: validation accepts only object queries

/-- The general-path scan of `dbQueryOne` (db.js 236–242): first match or
the empty-string sentinel. -/
def firstMatch (rt : RegexTester) (q : Value) : DocMap → Except String String
  | [] => pure ""
  | (id, d) :: rest => do
    let b ← evalQuery rt d q
    if b then pure id else firstMatch rt q rest

/-- `dbQueryOne(db, query)` (db.js 224–243).  (It has no empty-query special
case: an empty query reaches the general scan and matches the first doc.) -/
def dbQueryOne (rt : RegexTester) (db : DocMap) (q : Value) : Except String String := do
  let ok ← validateQuery q
  if !ok then return ""
  match q with
  | .obj fs =>
    match singleIdQuery fs with
    | some i => return (if (lookupDoc db i).isSome then i else "")
    | none => firstMatch rt q db
  | _ => return ""  -- unreachable: validation accepts only object queries

/-! ## Projection Engine (`dbProjection`, db.js 518–551) -/

/-- `dbProjection(doc, projection)` (db.js 518–551).  `none` is the
JS `undefined` return (malformed or mixed projection).  `structuredClone`
is the identity on immutable values.  In inclusive mode `output[key] =
structuredClone(doc[key])` assigns even when `doc[key]` is `undefined`,
which still creates the key — `getField` reads absent fields as `.undefined`,
and `setField` stores that value, exactly as JS does. -/
def dbProjection (doc : Doc) (projection : Value) : Option Doc :=
  match projection with
  | .obj pfs =>
    if pfs.isEmpty then some doc
    else
      let inclusiveKeysCount := pfs.countP fun p => jsTruthy p.2
      if inclusiveKeysCount > 0 && inclusiveKeysCount != pfs.length then
        none  -- "The projection values are mixed."
      else if inclusiveKeysCount > 0 then
        some (pfs.foldl (fun out p => setField out p.1 (getField doc p.1)) [])
      else
        some (doc.foldl
          (fun out p => if isUndefined (getField pfs p.1) then setField out p.1 (getField doc p.1)
                        else out) [])
  | _ => none  -- "The projection is not an object."

/-! ## Id Generator (`uid` / `makeId`, db.js 748–767)

The source draws `alphabet[Math.floor(Math.random() * alphabet.length)]`
per character.  `Math.random` is a host primitive; it is modelled as a
finite supply of pre-drawn indices `Fin uidAlphabet.length` (the value of
`Math.floor(Math.random() * alphabet.length)`).  The supply is finite, so
the unbounded JS retry loop becomes fuel-bounded recursion; the fuel is
sized so that it can only run out together with the entropy supply. -/

/-- The id alphabet of `uid` (db.js 761), verbatim from the source. -/
def uidAlphabet : String :=
  "abcdefghijklmnopqrstuvwxyzABCDEFGHIJKLMNOPQRSTUVWXYZ0123456789_"

/-- One pre-drawn value of `Math.floor(Math.random() * alphabet.length)`. -/
abbrev UidDraw := Fin uidAlphabet.length

/-- `alphabet[d]`. -/
def alphaChar (d : UidDraw) : Char :=
  uidAlphabet.data.get ⟨d.1, d.2⟩

/-- `uid(len)` (db.js 759–767): a string of `len` characters drawn from the
alphabet, consuming `len` draws; `none` when the draw supply is exhausted. -/
def uid (len : Nat) (entropy : List UidDraw) : Option (String × List UidDraw) :=
  if entropy.length < len then none
  else some (String.mk ((entropy.take len).map alphaChar), entropy.drop len)

/-- The retry loop of `makeId` (db.js 748–752), fuel-bounded. -/
def makeIdAux (db : DocMap) : Nat → List UidDraw → Option String
  | 0, _ => none
  | fuel + 1, entropy =>
    match uid 16 entropy with
    | none => none
    | some (id, rest) =>
      if (lookupDoc db id).isNone then some id else makeIdAux db fuel rest

/-- `makeId(db)` (db.js 748–752): draw a 16-character id, retrying while it
collides with an existing key. -/
def makeId (db : DocMap) (entropy : List UidDraw) : Option String :=
  makeIdAux db (entropy.length + 1) entropy

/-! ## Insert path (`dbInsert`, db.js 562–610) -/

/-- `insertDocWithId(db, doc)` (db.js 581–592).  The caller guarantees
`typeof doc._id === "string"`; the catch-all arm is unreachable. -/
def insertDocWithId (db : DocMap) (doc : Doc) : String × DocMap :=
  match getField doc "_id" with
  | .str id =>
    if (lookupDoc db id).isSome then ("", db)  -- "The _id is not unique."
    else (id, setDoc db id doc)
  | _ => ("", db)

/-- `insertDoc(db, doc)` (db.js 602–610): generate an id, store a clone,
then overwrite its `_id` with the generated id. -/
def insertDoc (db : DocMap) (doc : Doc) (entropy : List UidDraw) :
    Option (String × DocMap) :=
  match makeId db entropy with
  | none => none
  | some id => some (id, setDoc db id (setField doc "_id" (.str id)))

/-- `dbInsert(db, doc)` (db.js 562–571). -/
def dbInsert (entropy : List UidDraw) (db : DocMap) (docV : Value) :
    Option (String × DocMap) :=
  match docV with
  | .obj doc =>
    match getField doc "_id" with
    | .str s => if s.length > 0 then some (insertDocWithId db doc)
                else insertDoc db doc entropy
    | _ => insertDoc db doc entropy
  | _ => some ("", db)  -- "The document being inserted is not an object"

/-! ## Update Engine (`dbUpdate`, db.js 620–741)

Each operator runs one `for … of Object.entries(operand)` loop; each loop
iteration is a per-field sub-operation returning "did I change something"
together with the new document state.  The JS `numUpdated = 1` assignments
(never reset) make the engine's flag the Boolean OR of all per-field
successes, across all operators of the update. -/

/-- One `$inc` iteration (db.js 642–660). -/
def incStep (d : Doc) (field : String) (delta : Value) : Bool × Doc :=
  match delta with
  | .num n =>
    match getField d field with
    | .num m => (true, setField d field (.num (m + n)))
    | .undefined => (true, setField d field (.num n))
    | _ => (false, d)  -- "Cannot $inc field of type …"
  | _ => (false, d)    -- "Cannot $inc with a non-numeric delta"

/-- One `$push` iteration (db.js 664–678). -/
def pushStep (d : Doc) (field : String) (v : Value) : Bool × Doc :=
  match getField d field with
  | .undefined => (true, setField d field (.arr [v]))
  | .arr xs => (true, setField d field (.arr (xs ++ [v])))
  | _ => (false, d)  -- "Cannot $push to field of type …"

/-- One `$rename` iteration (db.js 682–706). -/
def renameStep (d : Doc) (field : String) (newNameV : Value) : Bool × Doc :=
  if field == "_id" then (false, d)  -- "Cannot $rename _id"
  else
    match newNameV with
    | .str newName =>
      if !isUndefined (getField d newName) then (false, d)  -- existing name
      else if !isUndefined (getField d field) then
        (true, deleteField (setField d newName (getField d field)) field)
      else (false, d)  -- "Cannot $rename a non-existing field"
    | _ => (false, d)  -- "Cannot $rename to a non-string name"

/-- One `$set` iteration (db.js 710–718). -/
def setStep (d : Doc) (field : String) (v : Value) : Bool × Doc :=
  if field == "_id" then (false, d)  -- "Cannot $set _id"
  else (true, setField d field v)

/-- One `$unset` iteration (db.js 722–732). -/
def unsetStep (d : Doc) (field : String) (flagV : Value) : Bool × Doc :=
  if field == "_id" then (false, d)  -- "Cannot $unset _id"
  else if !isUndefined (getField d field) && jsTruthy flagV then
    (true, deleteField d field)
  else (false, d)

/-- One operator's `for … of Object.entries(operand)` loop: apply the
per-field step left to right, OR-ing the per-field success flags. -/
def fieldFold (step : Doc → String → Value → Bool × Doc) :
    Doc → List (String × Value) → Bool × Doc
  | d, [] => (false, d)
  | d, (f, v) :: rest =>
    let r := step d f v
    let r2 := fieldFold step r.2 rest
    (r.1 || r2.1, r2.2)

/-- One arm of the `switch (operator)` of `dbUpdate` (db.js 640–737).
`Object.entries(operand)` raises a `TypeError` on a `null` operand. -/
def applyUpdateOp (d : Doc) (op : String) (operand : Value) :
    Except String (Bool × Doc) :=
  if op == "$inc" then do
    let entries ← jsObjectEntries operand
    pure (fieldFold incStep d entries)
  else if op == "$push" then do
    let entries ← jsObjectEntries operand
    pure (fieldFold pushStep d entries)
  else if op == "$rename" then do
    let entries ← jsObjectEntries operand
    pure (fieldFold renameStep d entries)
  else if op == "$set" then do
    let entries ← jsObjectEntries operand
    pure (fieldFold setStep d entries)
  else if op == "$unset" then do
    let entries ← jsObjectEntries operand
    pure (fieldFold unsetStep d entries)
  else
    pure (false, d)  -- "Wrong update operator. Given: …"

/-- The `for (const operator of operators)` loop of `dbUpdate`, threading
the document state and the accumulated `numUpdated` flag. -/
def applyUpdateOps (d : Doc) (acc : Bool) :
    List (String × Value) → Except String (Bool × Doc)
  | [] => pure (acc, d)
  | (op, v) :: rest => do
    let r ← applyUpdateOp d op v
    applyUpdateOps r.2 (acc || r.1) rest

/-- `dbUpdate(doc, update)` (db.js 620–741): returns `0` or `1` plus the
updated document. -/
def dbUpdate (doc : Doc) (update : Value) : Except String (Nat × Doc) :=
  match update with
  | .obj ops =>
    if ops.isEmpty then pure (0, doc)  -- "The update has no operators"
    else do
      let r ← applyUpdateOps doc false ops
      pure (if r.1 then 1 else 0, r.2)
  | _ => pure (0, doc)  -- "The update is not an object"

/-! ## Collection orchestration (`JsonDB` methods, db.js 36–180)

The class methods are modelled as pure state transformers on the
`docMap`; `save()` only performs I/O and never changes the in-memory map,
so the `skipSave` option has no observable effect here. -/

/-- `options?.multi` / `options?.skipSave` (absent options read as false). -/
structure OpOptions where
  multi : Bool := false
  skipSave : Bool := false

/-- `JsonDB.count(query)` (db.js 57–59). -/
def jsCount (rt : RegexTester) (db : DocMap) (q : Value) : Except String Nat := do
  let ids ← dbQuery rt db q
  pure ids.length

/-- `JsonDB.find(query, projection)` (db.js 68–70).  The ids returned by
`dbQuery` are store keys, so the lookup default is unreachable. -/
def jsFind (rt : RegexTester) (db : DocMap) (q : Value) (proj : Value) :
    Except String (List (Option Doc)) := do
  let ids ← dbQuery rt db q
  pure (ids.map fun id => dbProjection ((lookupDoc db id).getD []) proj)

/-- `JsonDB.findOne(query, projection)` (db.js 79–88). -/
def jsFindOne (rt : RegexTester) (db : DocMap) (q : Value) (proj : Value) :
    Except String (Option Doc) := do
  let id ← dbQueryOne rt db q
  if id == "" then pure none
  else pure (dbProjection ((lookupDoc db id).getD []) proj)

/-- `JsonDB.insert(doc, options)` (db.js 97–106): the returned id and the
new store state. -/
def jsInsert (entropy : List UidDraw) (db : DocMap) (docV : Value)
    (options : OpOptions) : Option (String × DocMap) :=
  dbInsert entropy db docV

/-- `JsonDB.remove(query, options)` (db.js 115–137): the number of removed
documents and the new store state. -/
def jsRemove (rt : RegexTester) (db : DocMap) (q : Value) (options : OpOptions) :
    Except String (Nat × DocMap) := do
  let ids ← dbQuery rt db q
  if ids.length == 0 then return (0, db)
  if ids.length > 1 && !options.multi then
    return (0, db)  -- "Cannot remove multiple docs without: {multi: true}"
  return (ids.length, ids.foldl deleteDoc db)

/-- The `for (const id of ids) numUpdated += dbUpdate(this.docMap[id], update)`
loop of `JsonDB.update` (db.js 159–162).  An id missing from the map would
reach `dbUpdate(undefined, …)`, which reports "not an object" and returns 0
without touching anything. -/
def updateAll (u : Value) : DocMap → List String → Except String (Nat × DocMap)
  | db, [] => pure (0, db)
  | db, id :: rest =>
    match lookupDoc db id with
    | none => updateAll u db rest
    | some d => do
      let r ← dbUpdate d u
      let r2 ← updateAll u (setDoc db id r.2) rest
      pure (r.1 + r2.1, r2.2)

/-- `JsonDB.update(query, update, options)` (db.js 147–169): the number of
updated documents and the new store state. -/
def jsUpdate (rt : RegexTester) (db : DocMap) (q : Value) (u : Value)
    (options : OpOptions) : Except String (Nat × DocMap) := do
  let ids ← dbQuery rt db q
  if ids.length == 0 then return (0, db)
  if ids.length > 1 && !options.multi then
    return (0, db)  -- "Cannot update multiple docs without: {multi: true}"
  updateAll u db ids

/-! ## Association-list lemmas -/

theorem alistGet_set_self {α : Type} (k : String) (v : α) (l : List (String × α)) :
    alistGet k (alistSet k v l) = some v := by
  induction l with
  | nil => simp [alistGet, alistSet]
  | cons p rest ih =>
    by_cases h : p.1 = k
    · simp [alistSet, alistGet, h]
    · simp [alistSet, alistGet, h, ih]

theorem alistGet_set_ne {α : Type} {k k' : String} (hk : k' ≠ k) (v : α)
    (l : List (String × α)) : alistGet k (alistSet k' v l) = alistGet k l := by
  induction l with
  | nil => simp [alistGet, alistSet, hk]
  | cons p rest ih =>
    by_cases h : p.1 = k'
    · simp [alistSet, alistGet, h, hk]
    · simp only [alistSet, beq_iff_eq, h, if_false, alistGet]
      by_cases h2 : p.1 = k <;> simp [h2, ih]

theorem alistSet_set_self {α : Type} (k : String) (v w : α) (l : List (String × α)) :
    alistSet k w (alistSet k v l) = alistSet k w l := by
  induction l with
  | nil => simp [alistSet]
  | cons p rest ih =>
    by_cases h : p.1 = k
    · simp [alistSet, h]
    · simp [alistSet, h, ih]

theorem alistGet_erase_ne {α : Type} {k k' : String} (hk : k' ≠ k)
    (l : List (String × α)) : alistGet k (alistErase k' l) = alistGet k l := by
  induction l with
  | nil => simp [alistErase]
  | cons p rest ih =>
    by_cases h : p.1 = k'
    · simp [alistErase, alistGet, h, hk]
    · simp only [alistErase, beq_iff_eq, h, if_false, alistGet]
      by_cases h2 : p.1 = k <;> simp [h2, ih]

theorem alistErase_sublist {α : Type} (k : String) (l : List (String × α)) :
    (alistErase k l).Sublist l := by
  induction l with
  | nil => simp [alistErase]
  | cons p rest ih =>
    by_cases h : p.1 = k
    · simp only [alistErase, beq_iff_eq, h, if_true]
      exact List.sublist_cons_self p rest
    · simp only [alistErase, beq_iff_eq, h, if_false]
      exact ih.cons₂ p

theorem mem_alistErase {α : Type} {p : String × α} {k : String}
    {l : List (String × α)} (h : p ∈ alistErase k l) : p ∈ l :=
  (alistErase_sublist k l).mem h

theorem mem_alistSet {α : Type} {p : String × α} {k : String} {v : α}
    {l : List (String × α)} (h : p ∈ alistSet k v l) : p = (k, v) ∨ p ∈ l := by
  induction l with
  | nil => simpa [alistSet] using h
  | cons q rest ih =>
    by_cases hq : q.1 = k
    · rcases (by simpa [alistSet, hq] using h) with h1 | h1
      · exact Or.inl h1
      · exact Or.inr (List.mem_cons_of_mem q h1)
    · rcases (by simpa [alistSet, hq] using h) with h1 | h1
      · exact Or.inr (by simp [h1])
      · rcases ih h1 with h2 | h2
        · exact Or.inl h2
        · exact Or.inr (List.mem_cons_of_mem q h2)

theorem alistGet_eq_none_iff {α : Type} (k : String) (l : List (String × α)) :
    alistGet k l = none ↔ k ∉ l.map Prod.fst := by
  induction l with
  | nil => simp [alistGet]
  | cons p rest ih =>
    by_cases h : p.1 = k
    · simp [alistGet, h]
    · have h' : ¬k = p.1 := fun hh => h hh.symm
      simp only [alistGet, beq_iff_eq, h, if_false, List.map_cons, List.mem_cons,
        not_or, ih]
      tauto

theorem alistGet_isSome_iff {α : Type} (k : String) (l : List (String × α)) :
    (alistGet k l).isSome = true ↔ k ∈ l.map Prod.fst := by
  rw [← Decidable.not_iff_not, ← alistGet_eq_none_iff k l]
  cases alistGet k l <;> simp

theorem keys_alistSet_of_mem {α : Type} {k : String} (v : α)
    {l : List (String × α)} (h : k ∈ l.map Prod.fst) :
    (alistSet k v l).map Prod.fst = l.map Prod.fst := by
  induction l with
  | nil => simp at h
  | cons p rest ih =>
    by_cases hp : p.1 = k
    · simp [alistSet, hp]
    · simp only [List.map_cons, List.mem_cons] at h
      have : k ∈ rest.map Prod.fst := by
        rcases h with h1 | h1
        · exact absurd h1.symm hp
        · exact h1
      simp [alistSet, hp, ih this]

theorem keys_alistSet_of_not_mem {α : Type} {k : String} (v : α)
    {l : List (String × α)} (h : k ∉ l.map Prod.fst) :
    (alistSet k v l).map Prod.fst = l.map Prod.fst ++ [k] := by
  induction l with
  | nil => simp [alistSet]
  | cons p rest ih =>
    have hp : p.1 ≠ k := fun hh => h (by simp [hh])
    have : k ∉ rest.map Prod.fst := fun hh => h (by simp [hh])
    simp [alistSet, hp, ih this]

theorem nodup_keys_alistSet {α : Type} (k : String) (v : α)
    {l : List (String × α)} (h : (l.map Prod.fst).Nodup) :
    ((alistSet k v l).map Prod.fst).Nodup := by
  by_cases hm : k ∈ l.map Prod.fst
  · rwa [keys_alistSet_of_mem v hm]
  · rw [keys_alistSet_of_not_mem v hm]
    simpa using List.Nodup.append h (by simp) (by simpa using hm)

/-! ## Field-level corollaries (`getField`/`setField`/`deleteField`) -/

theorem getField_set_self (d : Doc) (k : String) (v : Value) :
    getField (setField d k v) k = v := by
  simp [getField, setField, alistGet_set_self]

theorem getField_set_ne {k k' : String} (hk : k' ≠ k) (d : Doc) (v : Value) :
    getField (setField d k' v) k = getField d k := by
  simp [getField, setField, alistGet_set_ne hk]

theorem getField_delete_ne {k k' : String} (hk : k' ≠ k) (d : Doc) :
    getField (deleteField d k') k = getField d k := by
  simp [getField, deleteField, alistGet_erase_ne hk]

theorem setField_idem (d : Doc) (k : String) (v : Value) :
    setField (setField d k v) k v = setField d k v := by
  simp [setField, alistSet_set_self]

theorem alistSet_of_not_mem {α : Type} {k : String} (v : α)
    {l : List (String × α)} (h : k ∉ l.map Prod.fst) :
    alistSet k v l = l ++ [(k, v)] := by
  induction l with
  | nil => simp [alistSet]
  | cons p rest ih =>
    have hp : p.1 ≠ k := fun hh => h (by simp [hh])
    have : k ∉ rest.map Prod.fst := fun hh => h (by simp [hh])
    simp [alistSet, hp, ih this]

/-! ## `Except` computation lemmas -/

@[simp] theorem ok_bind {α β : Type} (a : α) (f : α → Except String β) :
    (Except.ok a : Except String α) >>= f = f a := rfl

@[simp] theorem error_bind {α β : Type} (e : String) (f : α → Except String β) :
    (Except.error e : Except String α) >>= f = .error e := rfl

@[simp] theorem except_pure_eq {α : Type} (a : α) :
    (pure a : Except String α) = Except.ok a := rfl

/-! ## Shared claim-level definitions -/

/-- A trivial instantiation of the host `RegExp` parameter, for concrete
evaluations that never reach `$like`. -/
def rtNone : RegexTester := fun _ _ => pure false

/-- A concrete three-document store (the store of the repository's own
query tests). -/
def sampleDb : DocMap :=
  [("1", [("_id", .str "1"), ("name", .str "foo"), ("val", .num 1)]),
   ("2", [("_id", .str "2"), ("name", .str "bar"), ("val", .num 2)]),
   ("3", [("_id", .str "3"), ("name", .str "baz"), ("val", .num 3)])]

/-- Does document `d`, stored under key `k`, carry `_id` equal to `k` and
non-empty? (Executable form of the store invariant.) -/
def idOk (k : String) (d : Doc) : Bool :=
  match getField d "_id" with
  | .str s => s == k && s != ""
  | _ => false

/-- The store invariant maintained by the collection: keys are unique, and
every stored document's `_id` is the non-empty string it is keyed by. -/
def StoreInv (db : DocMap) : Prop :=
  (db.map Prod.fst).Nodup ∧ ∀ p ∈ db, idOk p.1 p.2 = true

theorem idOk_iff (k : String) (d : Doc) :
    idOk k d = true ↔ getField d "_id" = .str k ∧ k ≠ "" := by
  unfold idOk
  cases h : getField d "_id" <;> simp_all

/-- The general path of `dbQuery` (db.js 206–215) exposed as its own
function: validation followed by the full per-document scan, with no
single-`_id` fast path. -/
def dbQueryGeneral (rt : RegexTester) (db : DocMap) (q : Value) :
    Except String (List String) := do
  let ok ← validateQuery q
  if !ok then return []
  filterMatches rt q db

/-- The general path of `dbQueryOne` (db.js 236–242) exposed as its own
function. -/
def dbQueryOneGeneral (rt : RegexTester) (db : DocMap) (q : Value) :
    Except String String := do
  let ok ← validateQuery q
  if !ok then return ""
  firstMatch rt q db

/-! ## Claim C3 — `$type` semantics

The claim says `$type: "object"` is false on arrays and on `null`.  The
code's `$type` arm falls through to `(typeof docVal) === opVal`, and in JS
`typeof [] === "object"` and `typeof null === "object"`, so both match. -/

/-- Counterexample to C3: `$type` with operand `"object"` evaluates to
`true` on an array field value and on a `null` field value. -/
theorem c3_type_object_counterexample :
    evalOperator rtNone (.arr []) "$type" (.str "object") = .ok true ∧
    evalOperator rtNone .null "$type" (.str "object") = .ok true :=
  ⟨rfl, rfl⟩

/-- C3 (amended): `$type` with operand `"array"` matches exactly arrays and
operand `"null"` matches exactly `null`, but operand `"object"` matches by
`typeof`, hence is true on plain objects, on arrays, and on `null`. -/
theorem c3_type_operator_semantics (rt : RegexTester) (docVal : Value) :
    (evalOperator rt docVal "$type" (.str "array") = .ok true ↔ isArray docVal = true) ∧
    (evalOperator rt docVal "$type" (.str "null") = .ok true ↔ docVal = .null) ∧
    (evalOperator rt docVal "$type" (.str "object") = .ok true ↔
      (isJsObject docVal || isArray docVal || jsStrictEq docVal .null) = true) := by
  cases docVal <;>
    simp [evalOperator, isArray, isJsObject, jsStrictEq, jsTypeof, pure, Except.pure]

/-! ## Claim C9 — `$set` idempotence -/

/-- C9: for a field `f ≠ "_id"`, applying `{$set: {f: v}}` twice yields
exactly the state one application yields (the `$set` assignment replaces
the field's value in place, so repeating it changes nothing further). -/
theorem c9_set_twice_eq_once (doc : Doc) (f : String) (v : Value)
    (hf : f ≠ "_id") :
    ∃ d₁ : Doc, dbUpdate doc (.obj [("$set", .obj [(f, v)])]) = .ok (1, d₁) ∧
      dbUpdate d₁ (.obj [("$set", .obj [(f, v)])]) = .ok (1, d₁) := by
  refine ⟨setField doc f v, ?_, ?_⟩ <;>
    simp [dbUpdate, applyUpdateOps, applyUpdateOp, jsObjectEntries, fieldFold,
      setStep, hf, setField_idem]

/-- Witness for C9 at a concrete document, field and value. -/
theorem c9_set_twice_eq_once_witness :
    ∃ d₁ : Doc,
      dbUpdate [("_id", .str "1")] (.obj [("$set", .obj [("a", .num 5)])]) = .ok (1, d₁) ∧
      dbUpdate d₁ (.obj [("$set", .obj [("a", .num 5)])]) = .ok (1, d₁) :=
  c9_set_twice_eq_once [("_id", .str "1")] "a" (.num 5) (by decide)

/-! ## Claim C6 — insert collision and non-object rejection -/

/-- C6: inserting a document whose explicit non-empty string `_id` is
already a store key returns the empty-id sentinel and leaves the store
(hence the document stored under that id) unchanged; inserting any
non-object value is rejected the same way. -/
theorem c6_insert_collision_and_non_object
    (entropy : List UidDraw) (db : DocMap) :
    (∀ (doc : Doc) (s : String), getField doc "_id" = .str s → s ≠ "" →
      (lookupDoc db s).isSome = true →
      dbInsert entropy db (.obj doc) = some ("", db)) ∧
    (∀ v : Value, isJsObject v = false → dbInsert entropy db v = some ("", db)) := by
  constructor
  · intro doc s hid hs hmem
    have hpos : s.length > 0 := by
      cases s with
      | mk cs =>
        cases cs with
        | nil => simp_all
        | cons c tl => simp [String.length]
    simp only [dbInsert, hid, hpos, if_true, insertDocWithId]
    simp [hmem]
  · intro v hv
    cases v <;> simp_all [dbInsert, isJsObject]

/-- Witness for C6: a collision on `_id = "1"` in the sample store, and a
non-object (string) insert, both rejected with the sentinel. -/
theorem c6_insert_collision_witness :
    dbInsert [] sampleDb (.obj [("_id", .str "1"), ("x", .num 9)]) = some ("", sampleDb) ∧
    dbInsert [] sampleDb (.str "not an object") = some ("", sampleDb) :=
  ⟨(c6_insert_collision_and_non_object [] sampleDb).1
      [("_id", .str "1"), ("x", .num 9)] "1" rfl (by decide) rfl,
    (c6_insert_collision_and_non_object [] sampleDb).2 (.str "not an object") rfl⟩

/-! ## Claim C1 — malformed queries and exceptions

The claim says *every* malformed query is recovered locally with an
empty/zero/absent result.  Most are — but `validateQuery`'s default branch
runs `Object.keys(qVal)` whenever `typeof qVal === "object"`, and
`typeof null === "object"`, so the query `{a: null}` raises a `TypeError`
that propagates out of `count`/`find`/`findOne`/`dbQuery` instead of being
recovered.  (`$like` with an ill-formed pattern against a string field
likewise raises at `new RegExp`, modelled by the `rt` parameter.) -/

/-- C1 (failing input): the query `{a: null}` — a query whose field operand
is `null` — makes validation, and with it every query operation, raise a
`TypeError` instead of returning an empty/zero/absent result. -/
theorem c1_null_operand_raises :
    validateQuery (.obj [("a", .null)]) =
      .error "TypeError: Cannot convert undefined or null to object" ∧
    dbQuery rtNone sampleDb (.obj [("a", .null)]) =
      .error "TypeError: Cannot convert undefined or null to object" ∧
    jsCount rtNone sampleDb (.obj [("a", .null)]) =
      .error "TypeError: Cannot convert undefined or null to object" ∧
    jsFind rtNone sampleDb (.obj [("a", .null)]) (.obj []) =
      .error "TypeError: Cannot convert undefined or null to object" ∧
    jsFindOne rtNone sampleDb (.obj [("a", .null)]) (.obj []) =
      .error "TypeError: Cannot convert undefined or null to object" :=
  ⟨rfl, rfl, rfl, rfl, rfl⟩

/-! ## Claim C7 — inclusive projection -/

theorem foldl_setField_eq_append (doc : Doc) (pfs : List (String × Value)) :
    ∀ out : Doc, (pfs.map Prod.fst).Nodup →
      (∀ k ∈ pfs.map Prod.fst, k ∉ out.map Prod.fst) →
      pfs.foldl (fun o p => setField o p.1 (getField doc p.1)) out
        = out ++ pfs.map fun p => (p.1, getField doc p.1) := by
  induction pfs with
  | nil => intro out _ _; simp
  | cons p rest ih =>
    intro out hnd hdisj
    simp only [List.map_cons, List.nodup_cons] at hnd
    have h1 : p.1 ∉ out.map Prod.fst := hdisj p.1 (by simp)
    have hset : setField out p.1 (getField doc p.1) = out ++ [(p.1, getField doc p.1)] :=
      alistSet_of_not_mem _ h1
    simp only [List.foldl_cons, hset]
    rw [ih (out ++ [(p.1, getField doc p.1)]) hnd.2 ?_]
    · simp
    · intro k hk
      simp only [List.map_append, List.map_cons, List.map_nil, List.mem_append,
        List.mem_singleton]
      rintro (hko | hkp)
      · exact hdisj k (by simp [hk]) hko
      · exact hnd.1 (hkp ▸ hk)

/-- C7: for a non-empty all-truthy (inclusive-mode) projection with
distinct keys, the output consists of exactly the listed fields, in listed
order, each carrying (a deep copy of) the document's value under that
field; in particular `_id` appears only when `"_id"` is itself listed. -/
theorem c7_projection_inclusive (doc : Doc) (pfs : List (String × Value))
    (hne : pfs ≠ []) (hnd : (pfs.map Prod.fst).Nodup)
    (htruthy : ∀ p ∈ pfs, jsTruthy p.2 = true) :
    dbProjection doc (.obj pfs) = some (pfs.map fun p => (p.1, getField doc p.1)) ∧
    (∀ out : Doc, dbProjection doc (.obj pfs) = some out →
      out.map Prod.fst = pfs.map Prod.fst ∧
      ("_id" ∉ pfs.map Prod.fst → "_id" ∉ out.map Prod.fst)) := by
  have hcount : pfs.countP (fun p => jsTruthy p.2) = pfs.length :=
    List.countP_eq_length.mpr htruthy
  have hlen : 0 < pfs.length := by
    cases pfs with
    | nil => exact absurd rfl hne
    | cons p rest => simp
  have hempty : pfs.isEmpty = false := by
    cases pfs with
    | nil => exact absurd rfl hne
    | cons p rest => rfl
  have hmain : dbProjection doc (.obj pfs)
      = some (pfs.map fun p => (p.1, getField doc p.1)) := by
    unfold dbProjection
    simp only [hempty, Bool.false_eq_true, if_false, hcount]
    have hgt : (decide (pfs.length > 0)) = true := by simpa using hlen
    simp only [hgt, bne_self_eq_false, Bool.true_and, Bool.and_false,
      Bool.false_eq_true, if_false, if_true]
    rw [foldl_setField_eq_append doc pfs [] hnd (by simp)]
    simp
    intro h
    exact absurd h hne
  refine ⟨hmain, ?_⟩
  intro out hout
  rw [hmain] at hout
  cases hout
  constructor
  · simp
  · intro h hmem
    exact h (by simpa using hmem)

/-- Witness for C7 at a concrete document and projection: projecting
`{a: 1}` out of a document that also has `_id` and `b`. -/
theorem c7_projection_inclusive_witness :
    dbProjection [("_id", .str "1"), ("a", .num 1), ("b", .num 2)]
        (.obj [("a", .num 1)]) = some [("a", .num 1)] := by
  have h := (c7_projection_inclusive
    [("_id", .str "1"), ("a", .num 1), ("b", .num 2)] [("a", .num 1)]
    (by simp) (by decide) (by intro p hp; rcases (by simpa using hp); rfl)).1
  simpa [getField, alistGet] using h

/-! ## Claim C4 — remove and the multi-match guard -/

theorem alistGet_erase_self_nodup {α : Type} {k : String}
    {l : List (String × α)} (h : (l.map Prod.fst).Nodup) :
    alistGet k (alistErase k l) = none := by
  induction l with
  | nil => simp [alistErase, alistGet]
  | cons p rest ih =>
    simp only [List.map_cons, List.nodup_cons] at h
    by_cases hp : p.1 = k
    · rw [show alistErase k (p :: rest) = rest by simp [alistErase, hp]]
      rw [alistGet_eq_none_iff]
      exact hp ▸ h.1
    · simp only [alistErase, beq_iff_eq, hp, if_false, alistGet]
      simp [hp, ih h.2]

theorem nodup_keys_alistErase {α : Type} (k : String)
    {l : List (String × α)} (h : (l.map Prod.fst).Nodup) :
    ((alistErase k l).map Prod.fst).Nodup :=
  ((alistErase_sublist k l).map Prod.fst).nodup h

theorem lookup_foldl_delete_not_mem {i : String} :
    ∀ (ids : List String) (db : DocMap), i ∉ ids →
      lookupDoc (ids.foldl deleteDoc db) i = lookupDoc db i := by
  intro ids
  induction ids with
  | nil => intro db _; rfl
  | cons j rest ih =>
    intro db hmem
    have hij : j ≠ i := fun h => hmem (by simp [h])
    have hrest : i ∉ rest := fun h => hmem (by simp [h])
    simp only [List.foldl_cons]
    rw [ih (deleteDoc db j) hrest]
    exact alistGet_erase_ne hij db

theorem nodup_keys_foldl_delete :
    ∀ (ids : List String) (db : DocMap), (db.map Prod.fst).Nodup →
      ((ids.foldl deleteDoc db).map Prod.fst).Nodup := by
  intro ids
  induction ids with
  | nil => intro db h; exact h
  | cons j rest ih =>
    intro db h
    simpa using ih (deleteDoc db j) (nodup_keys_alistErase j h)

theorem lookup_foldl_delete_mem {i : String} :
    ∀ (ids : List String) (db : DocMap), (db.map Prod.fst).Nodup → i ∈ ids →
      lookupDoc (ids.foldl deleteDoc db) i = none := by
  intro ids
  induction ids with
  | nil => intro db _ h; simp at h
  | cons j rest ih =>
    intro db hnd hmem
    simp only [List.foldl_cons]
    by_cases hr : i ∈ rest
    · exact ih (deleteDoc db j) (nodup_keys_alistErase j hnd) hr
    · have hij : i = j := by
        rcases List.mem_cons.mp hmem with h | h
        · exact h
        · exact absurd h hr
      rw [lookup_foldl_delete_not_mem rest (deleteDoc db j) hr, hij]
      exact alistGet_erase_self_nodup hnd

/-- C4: with the match set `ids` of the query, `remove` refuses entirely
(zero removed, store untouched) when there is more than one match and the
caller did not pass `multi`; otherwise it deletes exactly the matched
documents — every matched id is gone, every other key is untouched — and
returns the number of matches. -/
theorem c4_remove_multi_guard (rt : RegexTester) (db : DocMap) (q : Value)
    (opts : OpOptions) (ids : List String)
    (hq : dbQuery rt db q = .ok ids) (hnd : (db.map Prod.fst).Nodup) :
    (1 < ids.length → opts.multi = false → jsRemove rt db q opts = .ok (0, db)) ∧
    (ids.length ≤ 1 ∨ opts.multi = true →
      jsRemove rt db q opts = .ok (ids.length, ids.foldl deleteDoc db) ∧
      (∀ i ∈ ids, lookupDoc (ids.foldl deleteDoc db) i = none) ∧
      (∀ k, k ∉ ids → lookupDoc (ids.foldl deleteDoc db) k = lookupDoc db k)) := by
  constructor
  · intro hlen hmulti
    have hne : ids ≠ [] := by
      intro h
      subst h
      simp at hlen
    have hcond : 1 < ids.length ∧ opts.multi = false := ⟨hlen, hmulti⟩
    simp [jsRemove, hq, hne, hcond]
  · intro hgrant
    have hdel : ∀ i ∈ ids, lookupDoc (ids.foldl deleteDoc db) i = none :=
      fun i hi => lookup_foldl_delete_mem ids db hnd hi
    have hkeep : ∀ k, k ∉ ids → lookupDoc (ids.foldl deleteDoc db) k = lookupDoc db k :=
      fun k hk => lookup_foldl_delete_not_mem ids db hk
    refine ⟨?_, hdel, hkeep⟩
    by_cases h0 : ids = []
    · subst h0
      simp [jsRemove, hq]
    · have hcond2 : ¬(1 < ids.length ∧ opts.multi = false) := by
        rintro ⟨ha, hb⟩
        rcases hgrant with h | h
        · omega
        · rw [h] at hb
          cases hb
      simp [jsRemove, hq, h0, hcond2]

/-- Witness for C4: removing with the match-all query and no `multi`
option refuses (three matches) and leaves the sample store unchanged. -/
theorem c4_remove_multi_guard_witness :
    jsRemove rtNone sampleDb (.obj []) ⟨false, false⟩ = .ok (0, sampleDb) :=
  (c4_remove_multi_guard rtNone sampleDb (.obj []) ⟨false, false⟩
    ["1", "2", "3"] rfl (by decide)).1 (by decide) rfl

/-! ## Claim C2 — single-`_id` queries: fast path vs. general path -/

theorem validate_single_id (i : String) :
    validateQuery (.obj [("_id", .str i)]) = .ok true := by
  simp [validateQuery, validateFields, jsTypeof]

theorem evalQuery_single_id (rt : RegexTester) (d : Doc) (i s : String)
    (hid : getField d "_id" = .str s) :
    evalQuery rt d (.obj [("_id", .str i)]) = .ok (s == i) := by
  cases h : s == i <;>
    simp [evalQuery, evalQueryFields, jsTypeof, hid, jsStrictEq, h]

theorem filterMatches_single_id (rt : RegexTester) (i : String) :
    ∀ db : DocMap, (∀ p ∈ db, idOk p.1 p.2 = true) →
      filterMatches rt (.obj [("_id", .str i)]) db
        = .ok ((db.map Prod.fst).filter fun k => k == i) := by
  intro db
  induction db with
  | nil => intro _; rfl
  | cons p rest ih =>
    intro hinv
    have hp := (idOk_iff p.1 p.2).mp (hinv p (by simp))
    have hrest := ih fun q hq => hinv q (by simp [hq])
    simp only [filterMatches, evalQuery_single_id rt p.2 i p.1 hp.1, ok_bind, hrest,
      List.map_cons, List.filter_cons]
    cases h : p.1 == i <;> simp [h]

theorem firstMatch_single_id (rt : RegexTester) (i : String) :
    ∀ db : DocMap, (∀ p ∈ db, idOk p.1 p.2 = true) →
      firstMatch rt (.obj [("_id", .str i)]) db
        = .ok (if i ∈ db.map Prod.fst then i else "") := by
  intro db
  induction db with
  | nil => intro _; rfl
  | cons p rest ih =>
    intro hinv
    have hp := (idOk_iff p.1 p.2).mp (hinv p (by simp))
    have hrest := ih fun q hq => hinv q (by simp [hq])
    simp only [firstMatch, evalQuery_single_id rt p.2 i p.1 hp.1, ok_bind, hrest,
      List.map_cons]
    by_cases h : p.1 = i
    · simp [h]
    · have hni : ¬i = p.1 := fun hh => h hh.symm
      by_cases hm : i ∈ rest.map Prod.fst <;> simp [h, hni, hm]

theorem filter_beq_of_nodup {i : String} :
    ∀ l : List String, l.Nodup →
      (l.filter fun k => k == i) = if i ∈ l then [i] else [] := by
  intro l
  induction l with
  | nil => simp
  | cons a rest ih =>
    intro hnd
    simp only [List.nodup_cons] at hnd
    by_cases ha : a = i
    · subst ha
      simp [List.filter_cons, ih hnd.2, hnd.1]
    · have : ¬i = a := fun hh => ha hh.symm
      simp [List.filter_cons, ha, ih hnd.2, this]

/-- C2: on a store satisfying the collection invariant, the single-key
query `{_id: i}` matches exactly the document stored under key `i` (it
matches iff `i` is a store key), and the fast-path direct lookup taken by
`dbQuery`/`dbQueryOne` agrees with full per-document evaluation of the
same query. -/
theorem c2_single_id_query_fastpath (rt : RegexTester) (db : DocMap) (i : String)
    (hinv : StoreInv db) :
    dbQuery rt db (.obj [("_id", .str i)]) =
      .ok (if i ∈ db.map Prod.fst then [i] else []) ∧
    dbQuery rt db (.obj [("_id", .str i)]) =
      dbQueryGeneral rt db (.obj [("_id", .str i)]) ∧
    dbQueryOne rt db (.obj [("_id", .str i)]) =
      .ok (if i ∈ db.map Prod.fst then i else "") ∧
    dbQueryOne rt db (.obj [("_id", .str i)]) =
      dbQueryOneGeneral rt db (.obj [("_id", .str i)]) := by
  have hfast : dbQuery rt db (.obj [("_id", .str i)]) =
      .ok (if i ∈ db.map Prod.fst then [i] else []) := by
    simp only [dbQuery, validate_single_id, ok_bind]
    have hsid : singleIdQuery [("_id", .str i)] = some i := by
      simp [singleIdQuery, alistGet]
    simp only [Bool.not_true, Bool.false_eq_true, if_false, List.isEmpty_cons, hsid]
    by_cases hm : i ∈ db.map Prod.fst
    · have : (lookupDoc db i).isSome = true := (alistGet_isSome_iff i db).mpr hm
      simp [hm, this]
    · have : lookupDoc db i = none := (alistGet_eq_none_iff i db).mpr hm
      simp [hm, this]
  have hgen : dbQueryGeneral rt db (.obj [("_id", .str i)]) =
      .ok (if i ∈ db.map Prod.fst then [i] else []) := by
    simp only [dbQueryGeneral, validate_single_id, ok_bind, Bool.not_true,
      Bool.false_eq_true, if_false]
    rw [filterMatches_single_id rt i db hinv.2,
      filter_beq_of_nodup (db.map Prod.fst) hinv.1]
    rfl
  have hfast1 : dbQueryOne rt db (.obj [("_id", .str i)]) =
      .ok (if i ∈ db.map Prod.fst then i else "") := by
    simp only [dbQueryOne, validate_single_id, ok_bind]
    have hsid : singleIdQuery [("_id", .str i)] = some i := by
      simp [singleIdQuery, alistGet]
    simp only [Bool.not_true, Bool.false_eq_true, if_false, hsid]
    by_cases hm : i ∈ db.map Prod.fst
    · have : (lookupDoc db i).isSome = true := (alistGet_isSome_iff i db).mpr hm
      simp [hm, this]
    · have : lookupDoc db i = none := (alistGet_eq_none_iff i db).mpr hm
      simp [hm, this]
  have hgen1 : dbQueryOneGeneral rt db (.obj [("_id", .str i)]) =
      .ok (if i ∈ db.map Prod.fst then i else "") := by
    simp only [dbQueryOneGeneral, validate_single_id, ok_bind, Bool.not_true,
      Bool.false_eq_true, if_false]
    exact firstMatch_single_id rt i db hinv.2
  exact ⟨hfast, hfast.trans hgen.symm, hfast1, hfast1.trans hgen1.symm⟩

/-- Witness for C2 at the sample store: the id `"2"` is a key and the id
`"9"` is not. -/
theorem c2_single_id_query_fastpath_witness :
    dbQuery rtNone sampleDb (.obj [("_id", .str "2")]) =
      .ok (if "2" ∈ sampleDb.map Prod.fst then ["2"] else []) ∧
    dbQuery rtNone sampleDb (.obj [("_id", .str "9")]) =
      dbQueryGeneral rtNone sampleDb (.obj [("_id", .str "9")]) :=
  ⟨(c2_single_id_query_fastpath rtNone sampleDb "2" ⟨by decide, by decide⟩).1,
   (c2_single_id_query_fastpath rtNone sampleDb "9" ⟨by decide, by decide⟩).2.1⟩

/-! ## Claim C8 — the id generator

The claim calls the alphabet a "64-symbol URL-safe alphabet".  The source
alphabet `a–z A–Z 0–9 _` has 26+26+10+1 = 63 symbols (a URL-safe base64
alphabet would additionally contain `-`).  Everything else holds: ids are
16 characters drawn from the alphabet (per-character draws of
`Math.floor(Math.random() * alphabet.length)`, uniform if the host RNG
is), regenerated until they miss every existing key. -/

/-- Counterexample to C8: the id alphabet has 63 symbols, not 64. -/
theorem c8_alphabet_counterexample : ¬uidAlphabet.length = 64 := by decide

theorem uid_spec {len : Nat} {entropy rest : List UidDraw} {s : String}
    (h : uid len entropy = some (s, rest)) :
    s.length = len ∧ ∀ c ∈ s.data, c ∈ uidAlphabet.data := by
  unfold uid at h
  by_cases hlen : entropy.length < len
  · simp [hlen] at h
  · simp only [hlen, if_false] at h
    cases h
    constructor
    · simp only [String.length, List.length_map, List.length_take]
      omega
    · intro c hc
      rcases List.mem_map.mp hc with ⟨d, _, rfl⟩
      exact List.get_mem uidAlphabet.data d.1 d.2

theorem makeIdAux_spec (db : DocMap) :
    ∀ (fuel : Nat) (entropy : List UidDraw) (id : String),
      makeIdAux db fuel entropy = some id →
      id.length = 16 ∧ (∀ c ∈ id.data, c ∈ uidAlphabet.data) ∧
        lookupDoc db id = none := by
  intro fuel
  induction fuel with
  | zero => intro e id h; simp [makeIdAux] at h
  | succ n ih =>
    intro e id h
    unfold makeIdAux at h
    split at h
    · exact absurd h (by simp)
    next id' rest huid =>
      split at h
      next hfree =>
        cases h
        have hs := uid_spec huid
        exact ⟨hs.1, hs.2, Option.isNone_iff_eq_none.mp hfree⟩
      next => exact ih _ _ h

/-- C8 (amended): every id `makeId` produces is a 16-character string whose
characters all come from the 63-symbol URL-safe alphabet (one uniform host
RNG draw per character), and the returned id is never an existing store
key (regeneration on collision). -/
theorem c8_make_id_properties :
    (uidAlphabet.length = 63 ∧ uidAlphabet.data.Nodup) ∧
    ∀ (db : DocMap) (entropy : List UidDraw) (id : String),
      makeId db entropy = some id →
      id.length = 16 ∧ (∀ c ∈ id.data, c ∈ uidAlphabet.data) ∧
        lookupDoc db id = none := by
  refine ⟨⟨by decide, by decide⟩, ?_⟩
  intro db entropy id h
  exact makeIdAux_spec db (entropy.length + 1) entropy id h

/-- Witness for C8: sixteen zero draws on the empty store generate the id
`"aaaaaaaaaaaaaaaa"`. -/
theorem c8_make_id_properties_witness :
    ("aaaaaaaaaaaaaaaa".length = 16 ∧
      (∀ c ∈ "aaaaaaaaaaaaaaaa".data, c ∈ uidAlphabet.data) ∧
      lookupDoc [] "aaaaaaaaaaaaaaaa" = none) :=
  c8_make_id_properties.2 [] (List.replicate 16 ⟨0, by decide⟩) "aaaaaaaaaaaaaaaa" rfl

/-! ## Claim C5 — the update flag and the cross-document count -/

theorem dbUpdate_flag_boolean (doc : Doc) (u : Value) (n : Nat) (d' : Doc)
    (h : dbUpdate doc u = .ok (n, d')) : n = 0 ∨ n = 1 := by
  cases u with
  | obj ops =>
    by_cases he : ops.isEmpty
    · simp [dbUpdate, he] at h
      omega
    · simp only [dbUpdate, he, Bool.false_eq_true, if_false] at h
      cases hops : applyUpdateOps doc false ops with
      | error e => rw [hops] at h; simp at h
      | ok r =>
        rw [hops] at h
        simp only [ok_bind, except_pure_eq, Except.ok.injEq, Prod.mk.injEq] at h
        cases hr : r.1 <;> rw [hr] at h <;> simp at h <;> omega
  | undefined => simp [dbUpdate] at h; omega
  | null => simp [dbUpdate] at h; omega
  | bool b => simp [dbUpdate] at h; omega
  | num m => simp [dbUpdate] at h; omega
  | str s => simp [dbUpdate] at h; omega
  | arr xs => simp [dbUpdate] at h; omega

theorem fieldFold_append (step : Doc → String → Value → Bool × Doc)
    (l1 l2 : List (String × Value)) : ∀ d : Doc,
    fieldFold step d (l1 ++ l2)
      = ((fieldFold step d l1).1 || (fieldFold step (fieldFold step d l1).2 l2).1,
         (fieldFold step (fieldFold step d l1).2 l2).2) := by
  induction l1 with
  | nil => intro d; simp [fieldFold]
  | cons p tl ih =>
    obtain ⟨f, v⟩ := p
    intro d
    simp [fieldFold, ih, Bool.or_assoc]

theorem applyUpdateOps_acc_true :
    ∀ (ops : List (String × Value)) (d : Doc) (f : Bool) (d' : Doc),
      applyUpdateOps d true ops = .ok (f, d') → f = true := by
  intro ops
  induction ops with
  | nil =>
    intro d f d' h
    simp only [applyUpdateOps, except_pure_eq, Except.ok.injEq, Prod.mk.injEq] at h
    exact h.1.symm
  | cons p tl ih =>
    obtain ⟨op, v⟩ := p
    intro d f d' h
    simp only [applyUpdateOps] at h
    cases hop : applyUpdateOp d op v with
    | error e => rw [hop] at h; simp at h
    | ok r =>
      rw [hop] at h
      simp only [ok_bind, Bool.true_or] at h
      exact ih r.2 f d' h

theorem applyUpdateOps_append :
    ∀ (l1 l2 : List (String × Value)) (d : Doc) (acc : Bool),
      applyUpdateOps d acc (l1 ++ l2)
        = (applyUpdateOps d acc l1) >>= fun r => applyUpdateOps r.2 r.1 l2 := by
  intro l1
  induction l1 with
  | nil => intro l2 d acc; simp [applyUpdateOps]
  | cons p tl ih =>
    obtain ⟨op, v⟩ := p
    intro l2 d acc
    simp only [List.cons_append, applyUpdateOps]
    cases hop : applyUpdateOp d op v with
    | error e => simp
    | ok r => simp [ih]

/-- The per-document trajectory of `JsonDB.update`'s loop: each matched id
is looked up, `dbUpdate` runs on its document, and the per-document flags
are collected in order (a missing id reaches `dbUpdate(undefined, …)`,
which contributes flag 0 and changes nothing). -/
inductive UpdateRun (u : Value) : DocMap → List String → List Nat → DocMap → Prop where
  | nil (db : DocMap) : UpdateRun u db [] [] db
  | missing (db : DocMap) (id : String) (ids : List String) (flags : List Nat)
      (db' : DocMap) : lookupDoc db id = none → UpdateRun u db ids flags db' →
      UpdateRun u db (id :: ids) (0 :: flags) db'
  | step (db : DocMap) (id : String) (d : Doc) (n : Nat) (d' : Doc)
      (ids : List String) (flags : List Nat) (db' : DocMap) :
      lookupDoc db id = some d → dbUpdate d u = .ok (n, d') →
      UpdateRun u (setDoc db id d') ids flags db' →
      UpdateRun u db (id :: ids) (n :: flags) db'

theorem updateAll_counts (u : Value) :
    ∀ (ids : List String) (db : DocMap) (n : Nat) (db' : DocMap),
      updateAll u db ids = .ok (n, db') →
      ∃ flags : List Nat, UpdateRun u db ids flags db' ∧
        flags.length = ids.length ∧ (∀ x ∈ flags, x = 0 ∨ x = 1) ∧
        n = flags.count 1 := by
  intro ids
  induction ids with
  | nil =>
    intro db n db' h
    simp only [updateAll, except_pure_eq, Except.ok.injEq, Prod.mk.injEq] at h
    obtain ⟨h1, h2⟩ := h
    subst h2
    cases h1
    exact ⟨[], UpdateRun.nil db, rfl, by simp, rfl⟩
  | cons id rest ih =>
    intro db n db' h
    simp only [updateAll] at h
    cases hlk : lookupDoc db id with
    | none =>
      simp only [hlk] at h
      obtain ⟨flags, hrun, hlen, hflag, hcount⟩ := ih db n db' h
      refine ⟨0 :: flags, UpdateRun.missing db id rest flags db' hlk hrun,
        by simp [hlen], ?_, by simp [List.count_cons, hcount]⟩
      intro x hx
      rcases List.mem_cons.mp hx with h1 | h1
      · exact Or.inl h1
      · exact hflag x h1
    | some d =>
      simp only [hlk] at h
      cases hup : dbUpdate d u with
      | error e => simp [hup] at h
      | ok r =>
        obtain ⟨n₁, d₁⟩ := r
        simp only [hup, ok_bind] at h
        cases hrest : updateAll u (setDoc db id d₁) rest with
        | error e => simp [hrest] at h
        | ok r2 =>
          obtain ⟨n₂, db₂⟩ := r2
          simp only [hrest, ok_bind, except_pure_eq, Except.ok.injEq,
            Prod.mk.injEq] at h
          obtain ⟨h1, h2⟩ := h
          subst h2
          obtain ⟨flags, hrun, hlen, hflag, hcount⟩ := ih (setDoc db id d₁) n₂ db₂ hrest
          refine ⟨n₁ :: flags,
            UpdateRun.step db id d n₁ d₁ rest flags db₂ hlk hup hrun,
            by simp [hlen], ?_, ?_⟩
          · intro x hx
            rcases List.mem_cons.mp hx with hh | hh
            · exact hh ▸ dbUpdate_flag_boolean d u n₁ d₁ hup
            · exact hflag x hh
          · rcases dbUpdate_flag_boolean d u n₁ d₁ hup with h0 | h0
            · subst h0
              simp [List.count_cons, ← hcount, ← h1]
            · subst h0
              simp [List.count_cons, ← hcount, ← h1]
              omega

/-- C5: the Update Engine's change flag is 0 or 1 — a boolean "something
changed", not a per-field count; it is 1 whenever at least one per-field
sub-operation succeeded at its point in the run, however many other
sub-operations failed (within one operator and across operators); and the
collection-level `update`, under the same multi-match guard as `remove`,
returns the count of matched documents whose per-document flag was 1. -/
theorem c5_update_flag_semantics :
    (∀ (doc : Doc) (u : Value) (n : Nat) (d' : Doc),
      dbUpdate doc u = .ok (n, d') → n = 0 ∨ n = 1) ∧
    (∀ (step : Doc → String → Value → Bool × Doc) (d : Doc)
        (pre post : List (String × Value)) (f₀ : String) (v₀ : Value),
      (step (fieldFold step d pre).2 f₀ v₀).1 = true →
      (fieldFold step d (pre ++ (f₀, v₀) :: post)).1 = true) ∧
    (∀ (d : Doc) (acc : Bool) (pre post : List (String × Value)) (op : String)
        (v : Value) (b₁ : Bool) (d₁ d₂ : Doc) (f : Bool) (dd : Doc),
      applyUpdateOps d acc pre = .ok (b₁, d₁) →
      applyUpdateOp d₁ op v = .ok (true, d₂) →
      applyUpdateOps d acc (pre ++ (op, v) :: post) = .ok (f, dd) → f = true) ∧
    (∀ (rt : RegexTester) (db : DocMap) (q u : Value) (opts : OpOptions)
        (ids : List String), dbQuery rt db q = .ok ids → 1 < ids.length →
      opts.multi = false → jsUpdate rt db q u opts = .ok (0, db)) ∧
    (∀ (u : Value) (db : DocMap) (ids : List String) (n : Nat) (db' : DocMap),
      updateAll u db ids = .ok (n, db') →
      ∃ flags : List Nat, UpdateRun u db ids flags db' ∧
        flags.length = ids.length ∧ (∀ x ∈ flags, x = 0 ∨ x = 1) ∧
        n = flags.count 1) := by
  refine ⟨dbUpdate_flag_boolean, ?_, ?_, ?_, fun u db ids => updateAll_counts u ids db⟩
  · intro step d pre post f₀ v₀ hstep
    rw [fieldFold_append]
    simp only [fieldFold, hstep]
    simp [fieldFold, hstep]
  · intro d acc pre post op v b₁ d₁ d₂ f dd h1 h2 h3
    rw [applyUpdateOps_append, h1] at h3
    simp only [ok_bind, applyUpdateOps, h2] at h3
    simp only [ok_bind, Bool.or_true] at h3
    exact applyUpdateOps_acc_true post d₂ f dd h3
  · intro rt db q u opts ids hq hlen hmulti
    have hne : ids ≠ [] := by
      intro h
      subst h
      simp at hlen
    have hcond : 1 < ids.length ∧ opts.multi = false := ⟨hlen, hmulti⟩
    simp [jsUpdate, hq, hne, hcond]

/-- Witness for C5: updating three matched documents without `{multi: true}`
refuses with count 0 and leaves the sample store unchanged. -/
theorem c5_update_flag_semantics_witness :
    jsUpdate rtNone sampleDb (.obj []) (.obj [("$set", .obj [("a", .num 1)])])
      ⟨false, false⟩ = .ok (0, sampleDb) :=
  c5_update_flag_semantics.2.2.2.1 rtNone sampleDb (.obj [])
    (.obj [("$set", .obj [("a", .num 1)])]) ⟨false, false⟩
    ["1", "2", "3"] rfl (by decide) rfl

/-! ## Claim C10 — the `_id` invariant

Every stored document's `_id` is a non-empty string equal to its map key,
in every store reachable by insert/remove/update from a store satisfying
the invariant.  `$set`/`$unset`/`$rename` guard the `_id` field
explicitly; `$inc` and `$push` have no guard but cannot touch `_id`
because, under the invariant, `_id` holds a string — not a number, not
`undefined`, not an array — so their per-field type tests always fail on
it; `$rename` *onto* `_id` fails the existing-name test because `_id` is
always present. -/

theorem incStep_id {d : Doc} {s : String} (hid : getField d "_id" = .str s)
    (f : String) (v : Value) : getField (incStep d f v).2 "_id" = .str s := by
  cases v <;> simp only [incStep] <;> try exact hid
  cases hdf : getField d f <;> simp only [hdf] <;> try exact hid
  · -- the `undefined` arm assigns the delta to `f`
    have hf : f ≠ "_id" := by
      intro h
      rw [h, hid] at hdf
      simp at hdf
    simpa [getField_set_ne hf] using hid
  · -- the numeric arm adds the delta in place at `f`
    have hf : f ≠ "_id" := by
      intro h
      rw [h, hid] at hdf
      simp at hdf
    simpa [getField_set_ne hf] using hid

theorem pushStep_id {d : Doc} {s : String} (hid : getField d "_id" = .str s)
    (f : String) (v : Value) : getField (pushStep d f v).2 "_id" = .str s := by
  cases hdf : getField d f <;> simp only [pushStep, hdf] <;> try exact hid
  · have hf : f ≠ "_id" := by
      intro h
      rw [h, hid] at hdf
      simp at hdf
    simpa [getField_set_ne hf] using hid
  · have hf : f ≠ "_id" := by
      intro h
      rw [h, hid] at hdf
      simp at hdf
    simpa [getField_set_ne hf] using hid

theorem renameStep_id {d : Doc} {s : String} (hid : getField d "_id" = .str s)
    (f : String) (v : Value) : getField (renameStep d f v).2 "_id" = .str s := by
  by_cases hf : f == "_id"
  · simp [renameStep, hf, hid]
  · cases v <;> simp only [renameStep, hf, Bool.false_eq_true, if_false] <;> try exact hid
    next newName =>
      by_cases hnew : isUndefined (getField d newName)
      · have hnewne : newName ≠ "_id" := by
          intro h
          rw [h, hid] at hnew
          simp [isUndefined] at hnew
        by_cases hsrc : isUndefined (getField d f)
        · simp [hnew, hsrc, hid]
        · have hfne : f ≠ "_id" := by simpa using hf
          simp [hnew, hsrc, getField_delete_ne hfne, getField_set_ne hnewne, hid]
      · simp [hnew, hid]

theorem setStep_id {d : Doc} {s : String} (hid : getField d "_id" = .str s)
    (f : String) (v : Value) : getField (setStep d f v).2 "_id" = .str s := by
  by_cases hf : f == "_id"
  · simp [setStep, hf, hid]
  · have hfne : f ≠ "_id" := by simpa using hf
    simp [setStep, hf, getField_set_ne hfne, hid]

theorem unsetStep_id {d : Doc} {s : String} (hid : getField d "_id" = .str s)
    (f : String) (v : Value) : getField (unsetStep d f v).2 "_id" = .str s := by
  by_cases hf : f == "_id"
  · simp [unsetStep, hf, hid]
  · have hfne : f ≠ "_id" := by simpa using hf
    by_cases hcond : !isUndefined (getField d f) && jsTruthy v
    · simp [unsetStep, hf, hcond, getField_delete_ne hfne, hid]
    · simp [unsetStep, hf, hcond, hid]

theorem fieldFold_id {step : Doc → String → Value → Bool × Doc}
    (hstep : ∀ (d : Doc) (s : String), getField d "_id" = .str s →
      ∀ (f : String) (v : Value), getField (step d f v).2 "_id" = .str s) :
    ∀ (entries : List (String × Value)) (d : Doc) (s : String),
      getField d "_id" = .str s →
      getField (fieldFold step d entries).2 "_id" = .str s := by
  intro entries
  induction entries with
  | nil => intro d s hid; exact hid
  | cons p tl ih =>
    obtain ⟨f, v⟩ := p
    intro d s hid
    simp only [fieldFold]
    exact ih (step d f v).2 s (hstep d s hid f v)

theorem opEntries_id {step : Doc → String → Value → Bool × Doc}
    (hstep : ∀ (d : Doc) (s : String), getField d "_id" = .str s →
      ∀ (f : String) (v : Value), getField (step d f v).2 "_id" = .str s)
    {d : Doc} {s : String} {v : Value} {b : Bool} {d' : Doc}
    (hid : getField d "_id" = .str s)
    (h : (do
        let entries ← jsObjectEntries v
        pure (fieldFold step d entries) : Except String (Bool × Doc)) = .ok (b, d')) :
    getField d' "_id" = .str s := by
  cases hje : jsObjectEntries v with
  | error e => simp [hje] at h
  | ok es =>
    simp only [hje, ok_bind, except_pure_eq, Except.ok.injEq] at h
    have hp := fieldFold_id hstep es d s hid
    rw [h] at hp
    exact hp

theorem applyUpdateOp_id {d : Doc} {s : String} {op : String} {v : Value}
    {b : Bool} {d' : Doc} (hid : getField d "_id" = .str s)
    (h : applyUpdateOp d op v = .ok (b, d')) : getField d' "_id" = .str s := by
  unfold applyUpdateOp at h
  split_ifs at h
  · exact opEntries_id (fun d s hid f v => incStep_id hid f v) hid h
  · exact opEntries_id (fun d s hid f v => pushStep_id hid f v) hid h
  · exact opEntries_id (fun d s hid f v => renameStep_id hid f v) hid h
  · exact opEntries_id (fun d s hid f v => setStep_id hid f v) hid h
  · exact opEntries_id (fun d s hid f v => unsetStep_id hid f v) hid h
  · simp only [except_pure_eq, Except.ok.injEq, Prod.mk.injEq] at h
    exact h.2 ▸ hid

theorem applyUpdateOps_id :
    ∀ (ops : List (String × Value)) (d : Doc) (acc : Bool) (s : String)
      (f : Bool) (d' : Doc), getField d "_id" = .str s →
      applyUpdateOps d acc ops = .ok (f, d') → getField d' "_id" = .str s := by
  intro ops
  induction ops with
  | nil =>
    intro d acc s f d' hid h
    simp only [applyUpdateOps, except_pure_eq, Except.ok.injEq, Prod.mk.injEq] at h
    exact h.2 ▸ hid
  | cons p tl ih =>
    obtain ⟨op, v⟩ := p
    intro d acc s f d' hid h
    simp only [applyUpdateOps] at h
    cases hop : applyUpdateOp d op v with
    | error e => simp [hop] at h
    | ok r =>
      rw [hop] at h
      simp only [ok_bind] at h
      exact ih r.2 (acc || r.1) s f d' (applyUpdateOp_id hid (by rw [hop])) h

theorem dbUpdate_id {d : Doc} {u : Value} {s : String} {n : Nat} {d' : Doc}
    (hid : getField d "_id" = .str s) (h : dbUpdate d u = .ok (n, d')) :
    getField d' "_id" = .str s := by
  cases u with
  | obj ops =>
    by_cases he : ops.isEmpty
    · simp only [dbUpdate, he, if_true, except_pure_eq, Except.ok.injEq,
        Prod.mk.injEq] at h
      exact h.2 ▸ hid
    · simp only [dbUpdate, he, Bool.false_eq_true, if_false] at h
      cases hops : applyUpdateOps d false ops with
      | error e => simp [hops] at h
      | ok r =>
        rw [hops] at h
        simp only [ok_bind, except_pure_eq, Except.ok.injEq, Prod.mk.injEq] at h
        exact h.2 ▸ applyUpdateOps_id ops d false s r.1 r.2 hid (by rw [hops])
  | undefined => simp only [dbUpdate, except_pure_eq, Except.ok.injEq,
      Prod.mk.injEq] at h; exact h.2 ▸ hid
  | null => simp only [dbUpdate, except_pure_eq, Except.ok.injEq,
      Prod.mk.injEq] at h; exact h.2 ▸ hid
  | bool b => simp only [dbUpdate, except_pure_eq, Except.ok.injEq,
      Prod.mk.injEq] at h; exact h.2 ▸ hid
  | num m => simp only [dbUpdate, except_pure_eq, Except.ok.injEq,
      Prod.mk.injEq] at h; exact h.2 ▸ hid
  | str t => simp only [dbUpdate, except_pure_eq, Except.ok.injEq,
      Prod.mk.injEq] at h; exact h.2 ▸ hid
  | arr xs => simp only [dbUpdate, except_pure_eq, Except.ok.injEq,
      Prod.mk.injEq] at h; exact h.2 ▸ hid

theorem alistGet_mem {α : Type} {k : String} {v : α} :
    ∀ {l : List (String × α)}, alistGet k l = some v → (k, v) ∈ l := by
  intro l
  induction l with
  | nil => intro h; simp [alistGet] at h
  | cons p rest ih =>
    intro h
    by_cases hp : p.1 = k
    · simp only [alistGet, beq_iff_eq, hp, if_true, Option.some.injEq] at h
      have hpe : p = (k, v) := Prod.ext hp h
      rw [← hpe]
      exact List.mem_cons_self p rest
    · simp only [alistGet, beq_iff_eq, hp, if_false] at h
      exact List.mem_cons_of_mem p (ih h)

theorem foldl_delete_sublist : ∀ (ids : List String) (db : DocMap),
    (ids.foldl deleteDoc db).Sublist db := by
  intro ids
  induction ids with
  | nil => intro db; exact List.Sublist.refl db
  | cons j rest ih =>
    intro db
    exact (ih (deleteDoc db j)).trans (alistErase_sublist j db)

theorem storeInv_setDoc {db : DocMap} {id : String} {d : Doc}
    (hinv : StoreInv db) (hok : idOk id d = true) : StoreInv (setDoc db id d) := by
  constructor
  · exact nodup_keys_alistSet id d hinv.1
  · intro p hp
    rcases mem_alistSet hp with rfl | hmem
    · exact hok
    · exact hinv.2 p hmem

theorem storeInv_remove {rt : RegexTester} {db : DocMap} {q : Value}
    {opts : OpOptions} {n : Nat} {db' : DocMap} (hinv : StoreInv db)
    (h : jsRemove rt db q opts = .ok (n, db')) : StoreInv db' := by
  cases hq : dbQuery rt db q with
  | error e => simp [jsRemove, hq] at h
  | ok ids =>
    simp only [jsRemove, hq, ok_bind] at h
    split at h
    · simp only [ok_bind, except_pure_eq, Except.ok.injEq, Prod.mk.injEq] at h
      exact h.2 ▸ hinv
    · split at h
      · simp only [ok_bind, except_pure_eq, Except.ok.injEq, Prod.mk.injEq] at h
        exact h.2 ▸ hinv
      · simp only [ok_bind, except_pure_eq, Except.ok.injEq, Prod.mk.injEq] at h
        rw [← h.2]
        exact ⟨nodup_keys_foldl_delete ids db hinv.1,
          fun p hp => hinv.2 p ((foldl_delete_sublist ids db).mem hp)⟩

theorem storeInv_updateAll : ∀ (ids : List String) (u : Value) (db : DocMap)
    (n : Nat) (db' : DocMap), StoreInv db →
    updateAll u db ids = .ok (n, db') → StoreInv db' := by
  intro ids
  induction ids with
  | nil =>
    intro u db n db' hinv h
    simp only [updateAll, except_pure_eq, Except.ok.injEq, Prod.mk.injEq] at h
    exact h.2 ▸ hinv
  | cons id rest ih =>
    intro u db n db' hinv h
    simp only [updateAll] at h
    cases hlk : lookupDoc db id with
    | none =>
      simp only [hlk] at h
      exact ih u db n db' hinv h
    | some d =>
      simp only [hlk] at h
      cases hup : dbUpdate d u with
      | error e => simp [hup] at h
      | ok r =>
        obtain ⟨n₁, d₁⟩ := r
        simp only [hup, ok_bind] at h
        cases hrest : updateAll u (setDoc db id d₁) rest with
        | error e => simp [hrest] at h
        | ok r2 =>
          obtain ⟨n₂, db₂⟩ := r2
          simp only [hrest, ok_bind, except_pure_eq, Except.ok.injEq,
            Prod.mk.injEq] at h
          have hok := (idOk_iff id d).mp (hinv.2 (id, d) (alistGet_mem hlk))
          have hid1 : getField d₁ "_id" = .str id := dbUpdate_id hok.1 hup
          have hinv1 : StoreInv (setDoc db id d₁) :=
            storeInv_setDoc hinv ((idOk_iff id d₁).mpr ⟨hid1, hok.2⟩)
          exact h.2 ▸ ih u (setDoc db id d₁) n₂ db₂ hinv1 hrest

theorem storeInv_update {rt : RegexTester} {db : DocMap} {q u : Value}
    {opts : OpOptions} {n : Nat} {db' : DocMap} (hinv : StoreInv db)
    (h : jsUpdate rt db q u opts = .ok (n, db')) : StoreInv db' := by
  cases hq : dbQuery rt db q with
  | error e => simp [jsUpdate, hq] at h
  | ok ids =>
    simp only [jsUpdate, hq, ok_bind] at h
    split at h
    · simp only [ok_bind, except_pure_eq, Except.ok.injEq, Prod.mk.injEq] at h
      exact h.2 ▸ hinv
    · split at h
      · simp only [ok_bind, except_pure_eq, Except.ok.injEq, Prod.mk.injEq] at h
        exact h.2 ▸ hinv
      · exact storeInv_updateAll ids u db n db' hinv h

theorem storeInv_insertDoc {db : DocMap} {doc : Doc} {entropy : List UidDraw}
    {id : String} {db' : DocMap} (hinv : StoreInv db)
    (h : insertDoc db doc entropy = some (id, db')) : StoreInv db' := by
  unfold insertDoc at h
  cases hmk : makeId db entropy with
  | none => simp [hmk] at h
  | some newId =>
    simp only [hmk, Option.some.injEq, Prod.mk.injEq] at h
    have hprops := makeIdAux_spec db (entropy.length + 1) entropy newId hmk
    have hne : newId ≠ "" := by
      intro hh
      rw [hh] at hprops
      simp [String.length] at hprops
    have hok : idOk newId (setField doc "_id" (.str newId)) = true :=
      (idOk_iff _ _).mpr ⟨getField_set_self doc "_id" (.str newId), hne⟩
    exact h.2 ▸ storeInv_setDoc hinv hok

theorem storeInv_insert {entropy : List UidDraw} {db : DocMap} {docV : Value}
    {id : String} {db' : DocMap} (hinv : StoreInv db)
    (h : dbInsert entropy db docV = some (id, db')) : StoreInv db' := by
  cases docV with
  | obj doc =>
    cases hid : getField doc "_id" with
    | str s =>
      by_cases hs : s.length > 0
      · simp only [dbInsert, hid, hs, if_true, Option.some.injEq] at h
        unfold insertDocWithId at h
        rw [hid] at h
        by_cases hex : (lookupDoc db s).isSome
        · simp only [hex, if_true] at h
          injection h with h1 h2
          exact h2 ▸ hinv
        · simp only [hex, Bool.false_eq_true, if_false, Prod.mk.injEq] at h
          have hsne : s ≠ "" := by
            intro hh
            rw [hh] at hs
            simp [String.length] at hs
          exact h.2 ▸ storeInv_setDoc hinv ((idOk_iff s doc).mpr ⟨hid, hsne⟩)
      · simp only [dbInsert, hid, hs, if_false] at h
        exact storeInv_insertDoc hinv h
    | undefined => exact storeInv_insertDoc hinv (by simpa [dbInsert, hid] using h)
    | null => exact storeInv_insertDoc hinv (by simpa [dbInsert, hid] using h)
    | bool b => exact storeInv_insertDoc hinv (by simpa [dbInsert, hid] using h)
    | num m => exact storeInv_insertDoc hinv (by simpa [dbInsert, hid] using h)
    | arr xs => exact storeInv_insertDoc hinv (by simpa [dbInsert, hid] using h)
    | obj ofs => exact storeInv_insertDoc hinv (by simpa [dbInsert, hid] using h)
  | undefined => simp only [dbInsert, Option.some.injEq, Prod.mk.injEq] at h; exact h.2 ▸ hinv
  | null => simp only [dbInsert, Option.some.injEq, Prod.mk.injEq] at h; exact h.2 ▸ hinv
  | bool b => simp only [dbInsert, Option.some.injEq, Prod.mk.injEq] at h; exact h.2 ▸ hinv
  | num m => simp only [dbInsert, Option.some.injEq, Prod.mk.injEq] at h; exact h.2 ▸ hinv
  | str t => simp only [dbInsert, Option.some.injEq, Prod.mk.injEq] at h; exact h.2 ▸ hinv
  | arr xs => simp only [dbInsert, Option.some.injEq, Prod.mk.injEq] at h; exact h.2 ▸ hinv

/-- One collection-level mutation of the store: a completed `insert`,
`remove` or `update` call. -/
inductive StoreStep : DocMap → DocMap → Prop where
  | insert (db : DocMap) (entropy : List UidDraw) (docV : Value) (id : String)
      (db' : DocMap) : dbInsert entropy db docV = some (id, db') →
      StoreStep db db'
  | remove (db : DocMap) (rt : RegexTester) (q : Value) (opts : OpOptions)
      (n : Nat) (db' : DocMap) : jsRemove rt db q opts = .ok (n, db') →
      StoreStep db db'
  | update (db : DocMap) (rt : RegexTester) (q u : Value) (opts : OpOptions)
      (n : Nat) (db' : DocMap) : jsUpdate rt db q u opts = .ok (n, db') →
      StoreStep db db'

/-- C10: in every store reachable by any sequence of insert, remove and
update operations from a store satisfying it, every stored document's
`_id` is a non-empty string equal to its map key — including under updates
whose `$inc`/`$push`/`$rename` operands target `_id`, which the code also
prevents from altering `_id` (`$inc`/`$push` fail their type tests on a
string field, and `$rename` onto `_id` fails the existing-name test). -/
theorem c10_id_invariant (db db' : DocMap)
    (hreach : Relation.ReflTransGen StoreStep db db') (hinv : StoreInv db) :
    StoreInv db' := by
  induction hreach with
  | refl => exact hinv
  | tail hsteps hstep ih =>
    cases hstep with
    | insert dbm entropy docV id hins => exact storeInv_insert ih hins
    | remove dbm rt q opts n hrem => exact storeInv_remove ih hrem
    | update dbm rt q u opts n hupd => exact storeInv_update ih hupd

/-- Witness for C10: one `remove` step from the sample store (which
satisfies the invariant) reaches a store that still satisfies it. -/
theorem c10_id_invariant_witness :
    StoreInv [("1", [("_id", .str "1"), ("name", .str "foo"), ("val", .num 1)]),
              ("3", [("_id", .str "3"), ("name", .str "baz"), ("val", .num 3)])] :=
  c10_id_invariant sampleDb _
    (Relation.ReflTransGen.single
      (StoreStep.remove sampleDb rtNone (.obj [("_id", .str "2")])
        ⟨false, false⟩ 1 _ rfl))
    ⟨by decide, by decide⟩

end JsonDb
